import Mathlib

/-!
Shallow embedding of `software/contrib/bigben.py` (the EuroPi "BigBen"
tempo-synchronized trigger scheduler): tempo measurement
(`BigBen.measure_tempo`), the internal clock bank (`InternalClocks`), the
bounded task manager (`TaskManager`), the mode state machine (`ModeHandler`)
and the mode init functions, together with proofs of the specified
properties.

Modelling conventions:
* Python floats arising from `/` are modelled as exact rationals;
  `int(...)` truncation toward zero is `pyInt`.
* `machine.Timer` slots are `Option (Int × Bool)`: `none` is a
  deinitialised (idle) slot, `some (p, cb)` is a slot armed with integer
  period `p` and callback-present flag `cb`.
* Calls of lifecycle hooks and trigger handlers are recorded as `Event`
  values instead of executing Python callables.
* Printing is not modelled, except for the fired-timer index log in
  `triggered` (needed to talk about what `triggered` does with the index).
-/

namespace BigBen

/-- Python `int(q)` on a rational: truncation toward zero. -/
def pyInt (q : ℚ) : Int :=
  if 0 ≤ q.num then ((q.num.toNat / q.den : Nat) : Int)
  else -(((-q.num).toNat / q.den : Nat) : Int)

/-- The EuroPi firmware exposes six CV outputs (`cvs`);
`InternalClocks.__init__` allocates one `machine.Timer` per CV output. -/
def numCvs : Nat := 6

/-- The tempo-measurement state of the `BigBen` script: `self.quarter`
(0 until a tempo has been measured) and `self.tempo_samples`.
Timestamps come from `ticks_ms()`; they are modelled as integers. -/
structure TempoState where
  quarter : Int
  tempo_samples : List Int
deriving DecidableEq

/-- Model of `BigBen.measure_tempo` (lines 272-279): append the timestamp to
`tempo_samples`; once the history holds at least 4 samples, set
`quarter := samples[-1] - samples[-4]` and clear the history.
(The `modes.reinit()` side effect is modelled separately via the
mode-init functions.) -/
def TempoState.measure_tempo (s : TempoState) (t : Int) : TempoState :=
  let samples := s.tempo_samples ++ [t]
  if 4 ≤ samples.length then
    { quarter := samples.getD (samples.length - 1) 0 - samples.getD (samples.length - 4) 0,
      tempo_samples := [] }
  else
    { s with tempo_samples := samples }

/-- The initial tempo state of `BigBen.__init__`: no tempo, empty history. -/
def TempoState.initial : TempoState := ⟨0, []⟩

/-- One hardware timer slot: idle, or armed with a period and a
callback-present flag. -/
abbrev TimerSlot := Option (Int × Bool)

/-- The loop body of `InternalClocks.reset` (lines 85-89): walk the timers
in index order, deinit each; while the caller's `new_times` list is
nonempty, `pop(0)` its head and re-arm the slot with `int(period)` and the
shared callback.  Returns the new slots and what remains of the caller's
list (which Python mutates in place). -/
def resetLoop (cb : Bool) : List TimerSlot → List ℚ → List TimerSlot × List ℚ
  | [], ts => ([], ts)
  | _ :: rest, [] =>
    let r := resetLoop cb rest []
    (none :: r.1, r.2)
  | _ :: rest, t :: ts =>
    let r := resetLoop cb rest ts
    (some (pyInt t, cb) :: r.1, r.2)

/-- Model of `InternalClocks`: the bank of per-output timers. -/
structure InternalClocks where
  timers : List TimerSlot
deriving DecidableEq

/-- Model of `InternalClocks.reset(new_times=[], cb=None)`: see `resetLoop`. -/
def InternalClocks.reset (c : InternalClocks) (new_times : List ℚ) (cb : Bool) :
    InternalClocks × List ℚ :=
  let r := resetLoop cb c.timers new_times
  (⟨r.1⟩, r.2)

/-- Model of `InternalClocks.reset_one(idx)` (lines 91-92): `self.timers[idx].deinit()`.
It only stops the slot: it takes no period or callback and never arms. -/
def InternalClocks.reset_one (c : InternalClocks) (idx : Nat) : InternalClocks :=
  ⟨c.timers.set idx none⟩

/-- Model of `InternalClocks.__init__`: one timer per CV output, none armed with a
period/callback pair. -/
def InternalClocks.initial : InternalClocks := ⟨List.replicate numCvs none⟩

/-- Number of armed (running) slots of the clock bank. -/
def armedCount (c : InternalClocks) : Nat :=
  (c.timers.filter fun s => s.isSome).length

theorem resetLoop_nil_fst (cb : Bool) (tms : List TimerSlot) :
    (resetLoop cb tms []).1 = List.replicate tms.length none := by
  induction tms with
  | nil => rfl
  | cons t rest ih => simp [resetLoop, ih, List.replicate_succ]

theorem resetLoop_snd (cb : Bool) (tms : List TimerSlot) (ts : List ℚ) :
    (resetLoop cb tms ts).2 = ts.drop tms.length := by
  induction tms generalizing ts with
  | nil => rfl
  | cons t rest ih =>
    cases ts with
    | nil =>
      simp [resetLoop, ih]
    | cons t0 ts0 =>
      simp [resetLoop, ih]

theorem resetLoop_fst_of_length_eq (cb : Bool) (tms : List TimerSlot) (ts : List ℚ)
    (h : tms.length = ts.length) :
    (resetLoop cb tms ts).1 = ts.map fun t => some (pyInt t, cb) := by
  induction tms generalizing ts with
  | nil =>
    cases ts with
    | nil => rfl
    | cons t0 ts0 => simp at h
  | cons t rest ih =>
    cases ts with
    | nil => simp at h
    | cons t0 ts0 =>
      simp only [List.length_cons, Nat.succ.injEq] at h
      simp [resetLoop, ih ts0 h]

theorem timers_all_none_of_reset_nil (c : InternalClocks) (cb : Bool) :
    ∀ s ∈ ((c.reset [] cb).1).timers, s = (none : TimerSlot) := by
  intro s hs
  simp only [InternalClocks.reset, resetLoop_nil_fst] at hs
  exact List.eq_of_mem_replicate hs

theorem armedCount_eq_zero_of_all_none (c : InternalClocks)
    (h : ∀ s ∈ c.timers, s = (none : TimerSlot)) : armedCount c = 0 := by
  simp only [armedCount, List.length_eq_zero, List.filter_eq_nil_iff]
  intro s hs
  simp [h s hs]

/-- C1: sampling four strictly increasing timestamps into a tracker with an
empty history sets the quarter period to `t3 - t0` and leaves the history
empty. -/
theorem measure_tempo_four_pulses (t0 t1 t2 t3 : Int) (s : TempoState)
    (hs : s.tempo_samples = [])
    (h01 : t0 < t1) (h12 : t1 < t2) (h23 : t2 < t3) :
    ((((s.measure_tempo t0).measure_tempo t1).measure_tempo t2).measure_tempo t3).quarter
        = t3 - t0
    ∧ ((((s.measure_tempo t0).measure_tempo t1).measure_tempo t2).measure_tempo
        t3).tempo_samples = [] := by
  simp [TempoState.measure_tempo, hs, List.getD]

/-- C1 witness: pulses at 0, 500, 1000, 1500 from the initial state give a
quarter period of 1500 and an empty history. -/
theorem measure_tempo_four_pulses_witness :
    ((((TempoState.initial.measure_tempo 0).measure_tempo 500).measure_tempo
        1000).measure_tempo 1500).quarter = 1500 - 0
    ∧ ((((TempoState.initial.measure_tempo 0).measure_tempo 500).measure_tempo
        1000).measure_tempo 1500).tempo_samples = [] :=
  measure_tempo_four_pulses 0 500 1000 1500 TempoState.initial rfl
    (by decide) (by decide) (by decide)

/-- C2 counterexample: `reset([])` stops every slot, and `reset_one` only
deinits — after `reset([])` followed by `reset_one 0` on valid slot 0, zero
slots are armed, not exactly one. -/
theorem reset_nil_reset_one_counterexample :
    armedCount ((InternalClocks.initial.reset [] false).1.reset_one 0) = 0
    ∧ armedCount ((InternalClocks.initial.reset [] false).1.reset_one 0) ≠ 1 := by
  constructor
  · decide
  · decide

/-- C2 amended: after `reset` with an empty period list, `reset_one` on a
valid slot index is total (does not throw) and leaves zero slots armed:
`reset_one` only deinits its slot, it never arms anything. -/
theorem reset_nil_reset_one_all_idle (c : InternalClocks) (cb : Bool) (idx : Nat)
    (hidx : idx < numCvs) (hw : c.timers.length = numCvs) :
    armedCount ((c.reset [] cb).1.reset_one idx) = 0 := by
  apply armedCount_eq_zero_of_all_none
  intro s hs
  simp only [InternalClocks.reset_one] at hs
  rcases List.mem_or_eq_of_mem_set hs with h | h
  · exact timers_all_none_of_reset_nil c cb s h
  · exact h

/-- C2 amended witness. -/
theorem reset_nil_reset_one_all_idle_witness :
    armedCount ((InternalClocks.initial.reset [] false).1.reset_one 2) = 0 :=
  reset_nil_reset_one_all_idle InternalClocks.initial false 2 (by decide) (by decide)

/-- C10: `reset` pops `min L N` leading elements from the caller's
`new_times` list (`L` its length, `N` the number of slots), so a list of at
most `N` periods is empty afterwards. -/
theorem reset_mutates_new_times (c : InternalClocks) (ts : List ℚ) (cb : Bool)
    (hw : c.timers.length = numCvs) :
    (c.reset ts cb).2 = ts.drop (min ts.length numCvs)
    ∧ (ts.length ≤ numCvs → (c.reset ts cb).2 = []) := by
  have hdrop : (c.reset ts cb).2 = ts.drop numCvs := by
    simp [InternalClocks.reset, resetLoop_snd, hw]
  constructor
  · rw [hdrop]
    rcases Nat.le_total ts.length numCvs with h | h
    · rw [Nat.min_eq_left h, List.drop_length, List.drop_eq_nil_of_le h]
    · rw [Nat.min_eq_right h]
  · intro h
    rw [hdrop]
    exact List.drop_eq_nil_of_le h

/-- C10 witness: three periods over six slots are all consumed. -/
theorem reset_mutates_new_times_witness :
    (InternalClocks.initial.reset [1, 2, 3] true).2 =
        [1, 2, 3].drop (min (List.length [(1 : ℚ), 2, 3]) numCvs)
    ∧ (List.length [(1 : ℚ), 2, 3] ≤ numCvs →
        (InternalClocks.initial.reset [1, 2, 3] true).2 = []) :=
  reset_mutates_new_times InternalClocks.initial [1, 2, 3] true (by decide)

/-- The clock-division choices offered by `BigBen.clock_division`
(line 302): `k1.choice([1, 2, 3, 4, 5, 6, 7, 8, 16, 32])`. -/
def clockDivChoices : List Nat := [1, 2, 3, 4, 5, 6, 7, 8, 16, 32]

/-- The `period` computed by `BigBen.init_divmult` (line 224):
`int(self.quarter * (4 / self.clock_division()))`, with Python float
arithmetic modelled exactly over ℚ. -/
def divmultPeriod (quarter : Int) (d : Nat) : Int :=
  pyInt ((quarter : ℚ) * (4 / (d : ℚ)))

/-- Model of `BigBen.init_divmult` (lines 222-228): if a tempo is set, build
`times = [period, period * 2, period * 4, period / 2, period / 4, period / 8]`
and reset the clock bank with it (each armed period passes through
`int(...)` inside `InternalClocks.reset`); with no tempo, only log. -/
def init_divmult (quarter : Int) (d : Nat) (c : InternalClocks) : InternalClocks :=
  if 0 < quarter then
    let period : Int := divmultPeriod quarter d
    let times : List ℚ :=
      [(period : ℚ), (period : ℚ) * 2, (period : ℚ) * 4,
       (period : ℚ) / 2, (period : ℚ) / 4, (period : ℚ) / 8]
    (c.reset times true).1
  else c

/-- Model of `BigBen.init_dilla` (lines 237-238): `pass`. -/
def init_dilla (c : InternalClocks) : InternalClocks := c

theorem pyInt_intCast (n : Int) : pyInt (n : ℚ) = n := by
  simp only [pyInt, Rat.num_intCast, Rat.den_intCast, Nat.div_one]
  rcases le_or_lt 0 n with h | h
  · rw [if_pos h, Int.toNat_of_nonneg h]
  · rw [if_neg (not_le.mpr h), Int.toNat_of_nonneg (by omega), neg_neg]

theorem pyInt_intCast_mul_two (n : Int) : pyInt ((n : ℚ) * 2) = n * 2 := by
  rw [show ((n : ℚ) * 2) = ((n * 2 : Int) : ℚ) by push_cast; ring, pyInt_intCast]

theorem pyInt_intCast_mul_four (n : Int) : pyInt ((n : ℚ) * 4) = n * 4 := by
  rw [show ((n : ℚ) * 4) = ((n * 4 : Int) : ℚ) by push_cast; ring, pyInt_intCast]

/-- Bridge the source expression `quarter * (4 / d)` to `Rat.divInt`, which
the kernel can evaluate. -/
theorem divmultPeriod_eq_divInt (q : Int) (d : Nat) (hd : d ≠ 0) :
    divmultPeriod q d = pyInt (Rat.divInt (4 * q) d) := by
  have hdq : ((d : Nat) : ℚ) ≠ 0 := Nat.cast_ne_zero.mpr hd
  rw [divmultPeriod]
  congr 1
  rw [Rat.divInt_eq_div]
  push_cast
  field_simp
  ring

theorem pyInt_div_two (n : Int) : pyInt ((n : ℚ) / 2) = pyInt (Rat.divInt n 2) := by
  congr 1
  rw [Rat.divInt_eq_div]
  norm_num

theorem pyInt_div_four (n : Int) : pyInt ((n : ℚ) / 4) = pyInt (Rat.divInt n 4) := by
  congr 1
  rw [Rat.divInt_eq_div]
  norm_num

theorem pyInt_div_eight (n : Int) : pyInt ((n : ℚ) / 8) = pyInt (Rat.divInt n 8) := by
  congr 1
  rw [Rat.divInt_eq_div]
  norm_num

/-- Helper: the slots armed by `init_divmult` once a tempo is set. -/
theorem init_divmult_timers (q : Int) (d : Nat) (c : InternalClocks)
    (hq : 0 < q) (hw : c.timers.length = numCvs) :
    (init_divmult q d c).timers =
      [some (divmultPeriod q d, true),
       some (divmultPeriod q d * 2, true),
       some (divmultPeriod q d * 4, true),
       some (pyInt ((divmultPeriod q d : ℚ) / 2), true),
       some (pyInt ((divmultPeriod q d : ℚ) / 4), true),
       some (pyInt ((divmultPeriod q d : ℚ) / 8), true)] := by
  rw [init_divmult, if_pos hq]
  show (InternalClocks.mk (resetLoop true c.timers _).1).timers = _
  rw [resetLoop_fst_of_length_eq true c.timers _ (by rw [hw]; rfl)]
  simp only [List.map_cons, List.map_nil, pyInt_intCast, pyInt_intCast_mul_two,
    pyInt_intCast_mul_four]

/-- C3 amended: with a tempo `q > 0` and a clock division `d`, `init_divmult`
arms the six slots with periods `p`, `p * 2`, `p * 4`, `int(p / 2)`,
`int(p / 4)`, `int(p / 8)` where `p = int(q * (4 / d))`: the three
fractional entries of the times list are truncated to integers when the
timers are armed.  Four pulses 500ms apart measure q = 1500. -/
theorem init_divmult_arms (q : Int) (d : Nat) (c : InternalClocks)
    (hq : 0 < q) (hd : d ∈ clockDivChoices) (hw : c.timers.length = numCvs) :
    (init_divmult q d c).timers =
      [some (divmultPeriod q d, true),
       some (divmultPeriod q d * 2, true),
       some (divmultPeriod q d * 4, true),
       some (pyInt ((divmultPeriod q d : ℚ) / 2), true),
       some (pyInt ((divmultPeriod q d : ℚ) / 4), true),
       some (pyInt ((divmultPeriod q d : ℚ) / 8), true)]
    ∧ ((((TempoState.initial.measure_tempo 0).measure_tempo 500).measure_tempo
        1000).measure_tempo 1500).quarter = 1500 :=
  ⟨init_divmult_timers q d c hq hw, by decide⟩

/-- C3 amended witness: q = 1500, d = 1 arms 6000, 12000, 24000, 3000, 1500,
750 (and the four pulses 500ms apart indeed measure q = 1500). -/
theorem init_divmult_arms_witness :
    (init_divmult 1500 1 InternalClocks.initial).timers =
      [some (divmultPeriod 1500 1, true),
       some (divmultPeriod 1500 1 * 2, true),
       some (divmultPeriod 1500 1 * 4, true),
       some (pyInt ((divmultPeriod 1500 1 : ℚ) / 2), true),
       some (pyInt ((divmultPeriod 1500 1 : ℚ) / 4), true),
       some (pyInt ((divmultPeriod 1500 1 : ℚ) / 8), true)]
    ∧ ((((TempoState.initial.measure_tempo 0).measure_tempo 500).measure_tempo
        1000).measure_tempo 1500).quarter = 1500 :=
  init_divmult_arms 1500 1 InternalClocks.initial (by decide) (by decide) (by decide)

/-- C3 counterexample: at q = 1500 (four pulses 500ms apart) and d = 7 —
both inside the claim's ranges — `p = int(1500 * 4 / 7) = 857`, and slot 3
is armed with period 428, which is not `p / 2 = 428.5`. -/
theorem init_divmult_counterexample :
    divmultPeriod 1500 7 = 857
    ∧ (init_divmult 1500 7 InternalClocks.initial).timers.getD 3 none = some (428, true)
    ∧ ((428 : ℚ)) ≠ (divmultPeriod 1500 7 : ℚ) / 2 := by
  have hp : divmultPeriod 1500 7 = 857 := by
    rw [divmultPeriod_eq_divInt 1500 7 (by decide)]
    decide
  refine ⟨hp, ?_, ?_⟩
  · rw [init_divmult_timers 1500 7 InternalClocks.initial (by decide) (by decide)]
    simp only [List.getD_cons_succ, List.getD_cons_zero]
    rw [hp, pyInt_div_two]
    decide
  · rw [hp]
    norm_num

/-- Model of `TaskManager` (lines 29-72): a bounded list of background tasks.
`rejections` counts the "Too many tasks" reports printed by `create`.
Task completion (`t.done()` inside `status`) is not modelled: the tasks of
interest here are all freshly spawned and still pending. -/
structure TaskManager (α : Type) where
  tasks : List α
  size : Nat
  rejections : Nat
deriving DecidableEq

/-- Model of `TaskManager.create` (lines 37-44): if the registry already holds
`size` tasks, drop the request with a status report; otherwise append. -/
def TaskManager.create {α : Type} (tm : TaskManager α) (t : α) : TaskManager α :=
  if tm.size ≤ tm.tasks.length then { tm with rejections := tm.rejections + 1 }
  else { tm with tasks := tm.tasks ++ [t] }

/-- Model of `TaskManager.reset` (lines 69-72): cancel every task and empty the list. -/
def TaskManager.reset {α : Type} (tm : TaskManager α) : TaskManager α :=
  { tm with tasks := [] }

/-- Model of `k` spawn attempts numbered `0, ..., k-1` against an initially
empty manager of capacity `cap`. -/
def spawnMany (cap k : Nat) : TaskManager Nat :=
  (List.range k).foldl TaskManager.create ⟨[], cap, 0⟩

theorem spawnMany_state (cap k : Nat) :
    (spawnMany cap k).tasks = List.range (min k cap)
    ∧ (spawnMany cap k).rejections = k - cap
    ∧ (spawnMany cap k).size = cap := by
  induction k with
  | zero => refine ⟨?_, ?_, ?_⟩ <;> simp [spawnMany]
  | succ k ih =>
    obtain ⟨h1, h2, h3⟩ := ih
    have hstep : spawnMany cap (k + 1) = (spawnMany cap k).create k := by
      simp [spawnMany, List.range_succ]
    rcases Nat.lt_or_ge k cap with hk | hk
    · have hlen : ¬ cap ≤ (spawnMany cap k).tasks.length := by
        rw [h1, List.length_range, Nat.min_eq_left (Nat.le_of_lt hk)]
        omega
      rw [hstep, TaskManager.create, h3, if_neg hlen]
      refine ⟨?_, ?_, ?_⟩
      · simp only
        rw [h1, Nat.min_eq_left (Nat.le_of_lt hk), Nat.min_eq_left hk,
          ← List.range_succ]
      · simp only
        rw [h2]
        omega
      · rfl
    · have hlen : cap ≤ (spawnMany cap k).tasks.length := by
        rw [h1, List.length_range, Nat.min_eq_right hk]
      rw [hstep, TaskManager.create, h3, if_pos hlen]
      refine ⟨?_, ?_, ?_⟩
      · simp only
        rw [h1, Nat.min_eq_right hk, Nat.min_eq_right (Nat.le_succ_of_le hk)]
      · simp only
        rw [h2]
        omega
      · rfl

/-- C7: spawning `capacity + 1` tasks into an empty registry leaves exactly
`capacity` tasks and exactly one rejection report; `create` is total
(never raises). -/
theorem spawn_capacity_plus_one (cap : Nat) :
    (spawnMany cap (cap + 1)).tasks.length = cap
    ∧ (spawnMany cap (cap + 1)).rejections = 1 := by
  obtain ⟨h1, h2, -⟩ := spawnMany_state cap (cap + 1)
  constructor
  · rw [h1, List.length_range, Nat.min_eq_right (Nat.le_succ cap)]
  · rw [h2]
    omega

/-- The burst repeat counts `times = {1: 2, 2: 3, 3: 4, 4: 8, 5: 16}`
(line 200). -/
def burstTimes : Nat → Nat
  | 1 => 2
  | 2 => 3
  | 3 => 4
  | 4 => 8
  | 5 => 16
  | _ => 0

/-- A background task spawned by `burst_init`: the always-on
`toggle_cv(cvs[0])`, or `burst_cv(cvs[cvIdx], times)`. -/
inductive BurstTask where
  | toggle (cvIdx : Nat)
  | burst (cvIdx : Nat) (times : Nat)
deriving DecidableEq

/-- The indices produced by `for i, cv in enumerate(cvs[1:])`: the five
outputs beyond the first. -/
def extraCvIdxs : List Nat := [0, 1, 2, 3, 4]

/-- The threshold cascade of `burst_init` (lines 203-212): walk the extra
outputs in index order with `cv_threshold = 15 + 10 * (i + 1)` (a Python
int); while `in_threshold > cv_threshold` spawn `burst_cv(cv, times[i+1])`;
the first failing output `break`s the loop. -/
def burstCascade (in_threshold : ℚ) : List Nat → List BurstTask
  | [] => []
  | i :: rest =>
    if ((15 + 10 * (i + 1) : Nat) : ℚ) < in_threshold then
      BurstTask.burst (i + 1) (burstTimes (i + 1)) :: burstCascade in_threshold rest
    else []

/-- Model of `BigBen.burst_init` (lines 194-213): reset the burst task manager,
spawn the always-on `toggle_cv(cvs[0])` task, then run the threshold
cascade.  `in_threshold = k2.percent() * 100` is a live control read,
passed in as an input.  `quarter` is the script's tempo state: `burst_init`
never consults it for gating; the spawned `burst_cv` bodies read it only
for their inter-pulse delay `duration = quarter / times`. -/
def burst_init (quarter : Int) (in_threshold : ℚ) (tm : TaskManager BurstTask) :
    TaskManager BurstTask :=
  let tm1 := tm.reset
  let tm2 := tm1.create (BurstTask.toggle 0)
  (burstCascade in_threshold extraCvIdxs).foldl TaskManager.create tm2

/-- The division performed by `burst_cv` (line 267):
`duration = self.quarter / times`; `none` models a `ZeroDivisionError`.
`toggle_cv` performs no division at all. -/
def burstTaskDelay (quarter : Int) : BurstTask → Option ℚ
  | BurstTask.toggle _ => some 0
  | BurstTask.burst _ times =>
    if times = 0 then none else some ((quarter : ℚ) / (times : ℚ))

theorem burstCascade_eq_takeWhile (thr : ℚ) (l : List Nat) :
    burstCascade thr l =
      (l.takeWhile fun i => ((15 + 10 * (i + 1) : Nat) : ℚ) < thr).map
        fun i => BurstTask.burst (i + 1) (burstTimes (i + 1)) := by
  induction l with
  | nil => rfl
  | cons i rest ih =>
    rw [burstCascade, List.takeWhile_cons]
    by_cases h : ((15 + 10 * (i + 1) : Nat) : ℚ) < thr
    · rw [if_pos h, if_pos (decide_eq_true h), List.map_cons, ih]
    · rw [if_neg h, if_neg (by simp only [decide_eq_true_eq]; exact h), List.map_nil]

/-- C6: the extra outputs are examined in strict index order against
thresholds `15 + 10 * (i + 1)`, and the burst tasks spawned are exactly
the longest prefix of outputs passing their thresholds (the first failure
`break`s the cascade); with the live control value at 50, exactly the
first three extra outputs get spawned tasks and the fourth does not. -/
theorem burst_cascade_longest_prefix (thr : ℚ) :
    burstCascade thr extraCvIdxs =
      (extraCvIdxs.takeWhile fun i => ((15 + 10 * (i + 1) : Nat) : ℚ) < thr).map
        (fun i => BurstTask.burst (i + 1) (burstTimes (i + 1)))
    ∧ (burst_init 1500 50 ⟨[], 6, 0⟩).tasks =
        [BurstTask.toggle 0, BurstTask.burst 1 2, BurstTask.burst 2 3,
         BurstTask.burst 3 4]
    ∧ BurstTask.burst 4 8 ∉ (burst_init 1500 50 ⟨[], 6, 0⟩).tasks :=
  ⟨burstCascade_eq_takeWhile thr extraCvIdxs, by decide, by decide⟩

/-- C5 counterexample: with the tempo unset (`quarter = 0`), the burst
mode's init hook is not a no-op: it still spawns its always-on task and the
threshold cascade (here at control value 50, four tasks). -/
theorem burst_init_not_noop :
    (burst_init 0 50 ⟨[], 6, 0⟩).tasks =
      [BurstTask.toggle 0, BurstTask.burst 1 2, BurstTask.burst 2 3,
       BurstTask.burst 3 4]
    ∧ (burst_init 0 50 ⟨[], 6, 0⟩).tasks ≠ [] := by
  exact ⟨by decide, by decide⟩

theorem foldl_create_mem {α : Type} (l : List α) (tm : TaskManager α) :
    ∀ t ∈ (l.foldl TaskManager.create tm).tasks, t ∈ tm.tasks ∨ t ∈ l := by
  induction l generalizing tm with
  | nil => exact fun t ht => Or.inl ht
  | cons a rest ih =>
    intro t ht
    rcases ih (tm.create a) t ht with h | h
    · rw [TaskManager.create] at h
      by_cases hc : tm.size ≤ tm.tasks.length
      · rw [if_pos hc] at h
        exact Or.inl h
      · rw [if_neg hc] at h
        simp only [List.mem_append, List.mem_singleton] at h
        rcases h with h | h
        · exact Or.inl h
        · exact Or.inr (by simp [h])
    · exact Or.inr (List.mem_cons_of_mem a h)

theorem mem_burstCascade (thr : ℚ) (l : List Nat) (t : BurstTask)
    (ht : t ∈ burstCascade thr l) :
    ∃ i ∈ l, t = BurstTask.burst (i + 1) (burstTimes (i + 1)) := by
  induction l with
  | nil => simp [burstCascade] at ht
  | cons i rest ih =>
    rw [burstCascade] at ht
    by_cases h : ((15 + 10 * (i + 1) : Nat) : ℚ) < thr
    · rw [if_pos h] at ht
      rcases List.mem_cons.mp ht with h2 | h2
      · exact ⟨i, List.mem_cons_self i rest, h2⟩
      · obtain ⟨j, hj, hjt⟩ := ih h2
        exact ⟨j, List.mem_cons_of_mem i hj, hjt⟩
    · rw [if_neg h] at ht
      simp at ht

/-- C5 amended: with the tempo unset, the divmult and dilla init hooks are
no-ops on the clock bank (arming no timers); the burst init hook spawns
its tasks regardless of the tempo, but it arms no timers either and every
division it triggers (`duration = quarter / times` in `burst_cv`) has a
nonzero divisor, so no division by zero occurs. -/
theorem tempo_unset_init (q : Int) (d : Nat) (c : InternalClocks)
    (thr : ℚ) (tm : TaskManager BurstTask) (hq : q = 0) :
    init_divmult q d c = c
    ∧ init_dilla c = c
    ∧ ∀ t ∈ (burst_init q thr tm).tasks, burstTaskDelay q t ≠ none := by
  refine ⟨by rw [hq]; simp [init_divmult], rfl, ?_⟩
  intro t ht
  change t ∈ ((burstCascade thr extraCvIdxs).foldl TaskManager.create
      ((tm.reset).create (BurstTask.toggle 0))).tasks at ht
  rcases foldl_create_mem (burstCascade thr extraCvIdxs)
      ((tm.reset).create (BurstTask.toggle 0)) t ht with h | h
  · rw [TaskManager.create] at h
    by_cases hc : (tm.reset).size ≤ (tm.reset).tasks.length
    · rw [if_pos hc] at h
      simp [TaskManager.reset] at h
    · rw [if_neg hc] at h
      simp only [TaskManager.reset, List.nil_append, List.mem_singleton] at h
      rw [h]
      simp [burstTaskDelay]
  · obtain ⟨i, hi, hti⟩ := mem_burstCascade thr extraCvIdxs t h
    have hall : ∀ j ∈ extraCvIdxs, burstTimes (j + 1) ≠ 0 := by decide
    rw [hti]
    simp [burstTaskDelay, hall i hi]

/-- C5 amended witness. -/
theorem tempo_unset_init_witness :
    init_divmult 0 3 InternalClocks.initial = InternalClocks.initial
    ∧ init_dilla InternalClocks.initial = InternalClocks.initial
    ∧ ∀ t ∈ (burst_init 0 50 ⟨[], 6, 0⟩).tasks, burstTaskDelay 0 t ≠ none :=
  tempo_unset_init 0 3 InternalClocks.initial 50 ⟨[], 6, 0⟩ rfl

/-- A recorded invocation: lifecycle hooks, trigger-handler calls (note
that `ModeHandler.__call__` passes no arguments, so a handler-call event
carries only the mode name), and the fired-index log of `triggered`. -/
inductive Event where
  | logIdx (i : Nat)
  | exitHook (m : String)
  | initHook (m : String)
  | callHandler (m : String)
deriving DecidableEq

/-- Model of `ModeHandler` (lines 95-155): an insertion-ordered mapping from mode
name to optional trigger function (value `true` when a function was
supplied), the current mode, and the init/exit hook registries (hooks are
recorded by mode name; their bodies are opaque callables). -/
structure ModeHandler where
  modes : List (String × Bool)
  current_mode : Option String
  mode_inits : List String
  mode_exits : List String
deriving DecidableEq

/-- Model of `ModeHandler.__init__` (lines 96-100). -/
def ModeHandler.empty : ModeHandler := ⟨[], none, [], []⟩

/-- Model of `list(self.modes.keys())`: registered mode names in insertion order. -/
def ModeHandler.keys (h : ModeHandler) : List String := h.modes.map Prod.fst

/-- Python truthiness of `self.current_mode` in `if not self.current_mode`:
`None` and the empty string are falsy. -/
def pyFalsy : Option String → Bool
  | none => true
  | some s => s = ""

/-- Model of `register_mode` (lines 102-108): `self.modes[mode] = function` (an
`OrderedDict` keeps an existing key in place and updates its value,
otherwise appends); then `if not self.current_mode: self.current_mode =
mode`. -/
def ModeHandler.register_mode (h : ModeHandler) (m : String) (f : Bool) : ModeHandler :=
  { h with
    modes :=
      if h.modes.any fun p => p.1 = m then
        h.modes.map fun p => if p.1 = m then (m, f) else p
      else h.modes ++ [(m, f)],
    current_mode := if pyFalsy h.current_mode then some m else h.current_mode }

/-- Model of `register_mode_init` (lines 110-116): auto-register the bare mode if
absent, then record its init hook. -/
def ModeHandler.register_mode_init (h : ModeHandler) (m : String) : ModeHandler :=
  let h1 := if h.modes.any fun p => p.1 = m then h else h.register_mode m false
  { h1 with mode_inits := h1.mode_inits.insert m }

/-- Model of `register_mode_exit` (lines 118-124). -/
def ModeHandler.register_mode_exit (h : ModeHandler) (m : String) : ModeHandler :=
  let h1 := if h.modes.any fun p => p.1 = m then h else h.register_mode m false
  { h1 with mode_exits := h1.mode_exits.insert m }

/-- Model of `run_if(self.mode_exits)` (lines 134-137): the trace emitted when the
current mode has an exit hook (`dict.get` on `None` simply misses). -/
def ModeHandler.exitEvents (h : ModeHandler) : List Event :=
  match h.current_mode with
  | none => []
  | some c => if c ∈ h.mode_exits then [Event.exitHook c] else []

/-- Model of `run_if(self.mode_inits)` (lines 134-137). -/
def ModeHandler.initEvents (h : ModeHandler) : List Event :=
  match h.current_mode with
  | none => []
  | some c => if c ∈ h.mode_inits then [Event.initHook c] else []

/-- Model of `change_mode` (lines 139-143): run the current mode's exit hook (if
any), set `current_mode := mode`, then run the new mode's init hook (if
any).  Returns the new state and the hook-invocation trace. -/
def ModeHandler.change_mode (h : ModeHandler) (m : String) : ModeHandler × List Event :=
  let ev1 := h.exitEvents
  let h2 := { h with current_mode := some m }
  (h2, ev1 ++ h2.initEvents)

/-- Model of `next` (lines 145-152): find the current mode's position in the key
list (`none` models the `ValueError` raised by `list.index` when the
current mode is not a key, including the unregistered-`None` case);
advance to the following key, wrapping to index 0 when the current mode
equals the last key; `change_mode` there. -/
def ModeHandler.next (h : ModeHandler) : Option (ModeHandler × List Event) :=
  match h.current_mode with
  | none => none
  | some c =>
    if c ∈ h.keys then
      let current := h.keys.indexOf c
      let nxt := if some c = h.keys.getLast? then 0 else current + 1
      some (h.change_mode (h.keys.getD nxt ""))
    else none

/-- Model of `reinit` (lines 154-155): re-run only the current mode's init hook. -/
def ModeHandler.reinit (h : ModeHandler) : List Event := h.initEvents

/-- Model of `ModeHandler.__call__` (lines 126-129): look up
`self.modes[self.current_mode]` and, when truthy, call it — with no
arguments.  `none` models a raised `KeyError`. -/
def ModeHandler.callEvents (h : ModeHandler) : Option (List Event) :=
  match h.current_mode with
  | none => none
  | some c =>
    match h.modes.find? fun p => p.1 = c with
    | none => none
    | some p => some (if p.2 then [Event.callHandler c] else [])

/-- Model of `BigBen.triggered` (lines 293-299): compute the fired timer's index
from the timer object, print it, then invoke `self.modes()` — which takes
no arguments. -/
def triggered (h : ModeHandler) (i : Nat) : Option (List Event) :=
  (h.callEvents).map fun es => Event.logIdx i :: es

/-- The trigger-handler invocation events of a (possibly failed) trace. -/
def handlerCalls (r : Option (List Event)) : List Event :=
  (r.getD []).filter fun e =>
    match e with
    | Event.callHandler _ => true
    | _ => false

/-- A running-script handler state: modes "random" and "burst" registered
with trigger functions, current mode "random". -/
def sampleHandler : ModeHandler :=
  ⟨[("random", true), ("burst", true)], some "random", [], []⟩

/-- C8 counterexample: `triggered` does not pass the fired slot's index to
the trigger handler — the handler-invocation events for two different
fired slots (2 and 3) are identical, and the one handler-call event
carries only the mode name, the index being merely printed. -/
theorem triggered_ignores_index :
    handlerCalls (triggered sampleHandler 2) = handlerCalls (triggered sampleHandler 3)
    ∧ triggered sampleHandler 2 = some [Event.logIdx 2, Event.callHandler "random"]
    ∧ (2 : Nat) ≠ 3 :=
  ⟨by decide, by decide, by decide⟩

/-- C8 amended: for every fired slot, `triggered` logs the slot index and
then invokes the current mode's trigger handler — with no arguments —
whenever one is registered; in particular the handler invocation is the
same whatever slot fired. -/
theorem triggered_calls_handler (h : ModeHandler) (i j : Nat) (c : String)
    (hc : h.current_mode = some c)
    (hf : (h.modes.find? fun p => p.1 = c) = some (c, true)) :
    triggered h i = some [Event.logIdx i, Event.callHandler c]
    ∧ handlerCalls (triggered h i) = handlerCalls (triggered h j) := by
  have hcall : h.callEvents = some [Event.callHandler c] := by
    simp only [ModeHandler.callEvents, hc, hf, if_pos]
  constructor
  · rw [triggered, hcall]
    rfl
  · rw [handlerCalls, handlerCalls, triggered, triggered, hcall]
    rfl

/-- C8 amended witness. -/
theorem triggered_calls_handler_witness :
    triggered sampleHandler 4 = some [Event.logIdx 4, Event.callHandler "random"]
    ∧ handlerCalls (triggered sampleHandler 4) = handlerCalls (triggered sampleHandler 0) :=
  triggered_calls_handler sampleHandler 4 0 "random" rfl (by decide)

/-- One `next` step: under uniqueness of the registered mode names, the
current mode moves from position `i` to position `(i + 1) % n` of the key
list. -/
theorem next_eq (h : ModeHandler) (i : Nat) (hi : i < h.keys.length)
    (hnd : h.keys.Nodup) (hcur : h.current_mode = some (h.keys.getD i "")) :
    h.next = some (h.change_mode (h.keys.getD ((i + 1) % h.keys.length) "")) := by
  have hgi : h.keys.getD i "" = h.keys[i] := List.getD_eq_getElem h.keys "" hi
  have hmem : h.keys.getD i "" ∈ h.keys := by
    rw [hgi]
    exact List.getElem_mem hi
  have hidx : h.keys.indexOf (h.keys.getD i "") = i := by
    rw [hgi]
    exact List.indexOf_getElem hnd i hi
  simp only [ModeHandler.next, hcur, if_pos hmem, hidx]
  by_cases hl : some (h.keys.getD i "") = h.keys.getLast?
  · have hlast : h.keys.getD i "" = h.keys[h.keys.length - 1] := by
      rw [List.getLast?_eq_getElem?, List.getElem?_eq_getElem (by omega)] at hl
      exact Option.some.inj hl
    have hieq : i = h.keys.length - 1 := by
      have h2 := List.indexOf_getElem hnd (h.keys.length - 1) (by omega)
      rw [← hlast, hidx] at h2
      exact h2
    rw [if_pos hl, show (i + 1) % h.keys.length = 0 from by
      rw [show i + 1 = h.keys.length from by omega, Nat.mod_self]]
  · have hine : i ≠ h.keys.length - 1 := by
      intro hie
      apply hl
      subst hie
      rw [List.getLast?_eq_getElem?, List.getElem?_eq_getElem (by omega)]
      exact congrArg some hgi
    rw [if_neg hl, Nat.mod_eq_of_lt (by omega)]

/-- Iterated `next`, following only the engine state; `none` once any step
raises. -/
def iterNext : Nat → ModeHandler → Option ModeHandler
  | 0, h => some h
  | k + 1, h =>
    match h.next with
    | none => none
    | some r => iterNext k r.1

theorem iterNext_tracks (h : ModeHandler) (i k : Nat) (hi : i < h.keys.length)
    (hnd : h.keys.Nodup) (hcur : h.current_mode = some (h.keys.getD i "")) :
    ∃ h2, iterNext k h = some h2
      ∧ h2.modes = h.modes
      ∧ h2.current_mode = some (h.keys.getD ((i + k) % h.keys.length) "") := by
  induction k generalizing h i with
  | zero =>
    exact ⟨h, rfl, rfl, by rw [Nat.add_zero, Nat.mod_eq_of_lt hi, hcur]⟩
  | succ k ih =>
    have hstep := next_eq h i hi hnd hcur
    have hkeys3 : ((h.change_mode (h.keys.getD ((i + 1) % h.keys.length) "")).1).keys
        = h.keys := rfl
    have hlen : 0 < h.keys.length := by omega
    obtain ⟨h2, hit, hm, hc⟩ :=
      ih ((h.change_mode (h.keys.getD ((i + 1) % h.keys.length) "")).1)
        ((i + 1) % h.keys.length)
        (by rw [hkeys3]; exact Nat.mod_lt _ hlen)
        (by rw [hkeys3]; exact hnd)
        rfl
    refine ⟨h2, ?_, hm, ?_⟩
    · show (match h.next with
        | none => none
        | some r => iterNext k r.1) = some h2
      rw [hstep]
      exact hit
    · rw [hc, hkeys3, Nat.mod_add_mod, show i + 1 + k = i + (k + 1) from by omega]

theorem change_mode_snd (g : ModeHandler) (m c : String)
    (hgc : g.current_mode = some c) :
    (g.change_mode m).2 =
      (if c ∈ g.mode_exits then [Event.exitHook c] else [])
        ++ (if m ∈ g.mode_inits then [Event.initHook m] else []) := by
  simp only [ModeHandler.change_mode, ModeHandler.exitEvents, ModeHandler.initEvents, hgc]

/-- C4: from any state whose (unique) keys contain the current mode,
applying `next` `len(modes)` times returns the current mode to its
original value; and every single `next` transition emits exactly one
exit-hook event for the old mode (when it has one) followed by exactly one
init-hook event for the new mode (when it has one), in that order, with
the current mode set to the new mode. -/
theorem next_cycles_and_hooks (h : ModeHandler) (i : Nat) (hi : i < h.keys.length)
    (hnd : h.keys.Nodup) (hcur : h.current_mode = some (h.keys.getD i "")) :
    (∃ h2, iterNext h.keys.length h = some h2 ∧ h2.current_mode = h.current_mode)
    ∧ ∀ (g g2 : ModeHandler) (c : String) (evts : List Event),
        g.current_mode = some c → g.next = some (g2, evts) →
        ∃ m, g2.current_mode = some m
          ∧ List.Sublist evts [Event.exitHook c, Event.initHook m]
          ∧ evts.count (Event.exitHook c) = (if c ∈ g.mode_exits then 1 else 0)
          ∧ evts.count (Event.initHook m) = (if m ∈ g.mode_inits then 1 else 0) := by
  constructor
  · obtain ⟨h2, hit, hm, hc⟩ := iterNext_tracks h i h.keys.length hi hnd hcur
    refine ⟨h2, hit, ?_⟩
    rw [hc, Nat.add_mod_right, Nat.mod_eq_of_lt hi, hcur]
  · intro g g2 c evts hgc hgn
    by_cases hmem : c ∈ g.keys
    · have hnext0 : g.next = some (g.change_mode (g.keys.getD
          (if some c = g.keys.getLast? then 0 else g.keys.indexOf c + 1) "")) := by
        simp only [ModeHandler.next, hgc]
        rw [if_pos hmem]
      obtain ⟨t, hnext⟩ : ∃ t, g.next = some (g.change_mode t) := ⟨_, hnext0⟩
      rw [hnext] at hgn
      have hgn2 := Option.some.inj hgn
      have hfst : (g.change_mode t).1 = g2 := congrArg Prod.fst hgn2
      have hsnd : (g.change_mode t).2 = evts := congrArg Prod.snd hgn2
      have hg2c : g2.current_mode = some t := by
        rw [← hfst]
        rfl
      have hevts : evts = (if c ∈ g.mode_exits then [Event.exitHook c] else [])
          ++ (if t ∈ g.mode_inits then [Event.initHook t] else []) := by
        rw [← hsnd, change_mode_snd g t c hgc]
      refine ⟨t, hg2c, ?_, ?_, ?_⟩
      · rw [hevts]
        by_cases he : c ∈ g.mode_exits <;> by_cases hin : t ∈ g.mode_inits
        · rw [if_pos he, if_pos hin]
          exact List.Sublist.refl _
        · rw [if_pos he, if_neg hin, List.append_nil]
          exact (List.nil_sublist _).cons₂ _
        · rw [if_neg he, if_pos hin, List.nil_append]
          exact (List.Sublist.refl _).cons _
        · rw [if_neg he, if_neg hin, List.append_nil]
          exact List.nil_sublist _
      · rw [hevts]
        by_cases he : c ∈ g.mode_exits <;> by_cases hin : t ∈ g.mode_inits <;>
          simp [he, hin, List.count_cons]
      · rw [hevts]
        by_cases he : c ∈ g.mode_exits <;> by_cases hin : t ∈ g.mode_inits <;>
          simp [he, hin, List.count_cons]
    · have : g.next = none := by
        simp only [ModeHandler.next, hgc]
        rw [if_neg hmem]
      rw [this] at hgn
      exact Option.noConfusion hgn

/-- A concrete engine used to witness C4: two registered modes, an exit
and an init hook on the first, current mode at position 0. -/
def cycleHandler : ModeHandler :=
  ⟨[("divmult", false), ("random", true)], some "divmult", ["divmult"], ["divmult"]⟩

/-- C4 witness. -/
theorem next_cycles_and_hooks_witness :
    (∃ h2, iterNext cycleHandler.keys.length cycleHandler = some h2
       ∧ h2.current_mode = cycleHandler.current_mode)
    ∧ ∀ (g g2 : ModeHandler) (c : String) (evts : List Event),
        g.current_mode = some c → g.next = some (g2, evts) →
        ∃ m, g2.current_mode = some m
          ∧ List.Sublist evts [Event.exitHook c, Event.initHook m]
          ∧ evts.count (Event.exitHook c) = (if c ∈ g.mode_exits then 1 else 0)
          ∧ evts.count (Event.initHook m) = (if m ∈ g.mode_inits then 1 else 0) :=
  next_cycles_and_hooks cycleHandler 0 (by decide) (by decide) (by decide)

/-- The mode-engine operations driven by the script. -/
inductive Op where
  | registerMode (m : String) (f : Bool)
  | registerInit (m : String)
  | registerExit (m : String)
  | changeMode (m : String)
  | next
deriving DecidableEq

/-- Apply one operation.  A `next` whose `list.index` lookup would raise
leaves the engine state unchanged (the exception propagates past it). -/
def applyOp (h : ModeHandler) : Op → ModeHandler
  | Op.registerMode m f => h.register_mode m f
  | Op.registerInit m => h.register_mode_init m
  | Op.registerExit m => h.register_mode_exit m
  | Op.changeMode m => (h.change_mode m).1
  | Op.next =>
    match h.next with
    | none => h
    | some r => r.1

def applyOps (h : ModeHandler) : List Op → ModeHandler
  | [] => h
  | op :: rest => applyOps (applyOp h op) rest

/-- One operation is valid when a `changeMode` targets a registered mode. -/
def validOp (h : ModeHandler) : Op → Bool
  | Op.changeMode m => m ∈ h.keys
  | _ => true

/-- A sequence of operations is valid when each `changeMode` targets a
mode registered at the time of the call. -/
def validOps (h : ModeHandler) : List Op → Bool
  | [] => true
  | op :: rest => validOp h op && validOps (applyOp h op) rest

/-- The strengthened engine invariant carried through the induction: mode
identifiers are unique, and either nothing is registered yet (and there is
no current mode) or the current mode is a registered key. -/
def EngineInvStrong (h : ModeHandler) : Prop :=
  h.keys.Nodup ∧ ((h.modes = [] ∧ h.current_mode = none)
    ∨ ∃ c, h.current_mode = some c ∧ c ∈ h.keys)

theorem keys_register_mode_mem (h : ModeHandler) (m : String) (f : Bool)
    (hm : (h.modes.any fun p => p.1 = m) = true) :
    (h.register_mode m f).keys = h.keys := by
  simp only [ModeHandler.register_mode, ModeHandler.keys, hm, if_true]
  rw [List.map_map]
  apply List.map_congr_left
  intro p hp
  by_cases hpm : p.1 = m
  · simp [Function.comp, hpm]
  · simp [Function.comp, hpm]

theorem keys_register_mode_not_mem (h : ModeHandler) (m : String) (f : Bool)
    (hm : ¬ (h.modes.any fun p => p.1 = m) = true) :
    (h.register_mode m f).keys = h.keys ++ [m] := by
  simp only [ModeHandler.register_mode, ModeHandler.keys, hm, Bool.false_eq_true,
    if_false]
  rw [List.map_append]
  rfl

theorem register_mode_preserves (h : ModeHandler) (m : String) (f : Bool)
    (hinv : EngineInvStrong h) : EngineInvStrong (h.register_mode m f) := by
  obtain ⟨hnd, hcur⟩ := hinv
  by_cases hm : (h.modes.any fun p => p.1 = m) = true
  · have hkeys := keys_register_mode_mem h m f hm
    have hmem : m ∈ h.keys := by
      obtain ⟨p, hp, hpm⟩ := List.any_eq_true.mp hm
      have hpm2 : p.1 = m := of_decide_eq_true hpm
      rw [ModeHandler.keys]
      exact hpm2 ▸ List.mem_map_of_mem Prod.fst hp
    refine ⟨by rw [hkeys]; exact hnd, ?_⟩
    by_cases hf : pyFalsy h.current_mode = true
    · right
      refine ⟨m, ?_, by rw [hkeys]; exact hmem⟩
      simp [ModeHandler.register_mode, hf]
    · rcases hcur with ⟨hmodes, -⟩ | ⟨c, hc, hck⟩
      · rw [hmodes] at hm
        simp at hm
      · right
        refine ⟨c, ?_, by rw [hkeys]; exact hck⟩
        simp only [ModeHandler.register_mode, hf, if_false]
        exact hc
  · have hkeys := keys_register_mode_not_mem h m f hm
    have hnotmem : m ∉ h.keys := by
      intro hmem
      apply hm
      rw [ModeHandler.keys, List.mem_map] at hmem
      obtain ⟨p, hp, hpm⟩ := hmem
      exact List.any_eq_true.mpr ⟨p, hp, decide_eq_true hpm⟩
    refine ⟨?_, ?_⟩
    · rw [hkeys]
      refine List.Nodup.append hnd (List.nodup_singleton m) ?_
      intro x hx hxm
      rw [List.mem_singleton] at hxm
      subst hxm
      exact hnotmem hx
    · by_cases hf : pyFalsy h.current_mode = true
      · right
        refine ⟨m, ?_, by rw [hkeys]; simp⟩
        simp [ModeHandler.register_mode, hf]
      · rcases hcur with ⟨-, hnone⟩ | ⟨c, hc, hck⟩
        · rw [hnone] at hf
          exact absurd rfl hf
        · right
          refine ⟨c, ?_, by rw [hkeys]; exact List.mem_append_left _ hck⟩
          simp only [ModeHandler.register_mode, hf, if_false]
          exact hc

theorem register_mode_init_preserves (h : ModeHandler) (m : String)
    (hinv : EngineInvStrong h) : EngineInvStrong (h.register_mode_init m) := by
  rw [ModeHandler.register_mode_init]
  by_cases hm : (h.modes.any fun p => p.1 = m) = true
  · simp only [hm, if_true]
    exact hinv
  · simp only [hm, if_false]
    exact register_mode_preserves h m false hinv

theorem register_mode_exit_preserves (h : ModeHandler) (m : String)
    (hinv : EngineInvStrong h) : EngineInvStrong (h.register_mode_exit m) := by
  rw [ModeHandler.register_mode_exit]
  by_cases hm : (h.modes.any fun p => p.1 = m) = true
  · simp only [hm, if_true]
    exact hinv
  · simp only [hm, if_false]
    exact register_mode_preserves h m false hinv

theorem change_mode_preserves (h : ModeHandler) (m : String)
    (hinv : EngineInvStrong h) (hm : m ∈ h.keys) :
    EngineInvStrong ((h.change_mode m).1) :=
  ⟨hinv.1, Or.inr ⟨m, rfl, hm⟩⟩

theorem next_some_shape (h : ModeHandler) (r : ModeHandler × List Event)
    (hnd : h.keys.Nodup) (hr : h.next = some r) :
    ∃ j, j < h.keys.length ∧ r = h.change_mode (h.keys.getD j "") := by
  cases hcm : h.current_mode with
  | none =>
    have : h.next = none := by
      simp only [ModeHandler.next, hcm]
    rw [this] at hr
    exact Option.noConfusion hr
  | some c =>
    by_cases hmem : c ∈ h.keys
    · have hi : h.keys.indexOf c < h.keys.length := List.indexOf_lt_length.mpr hmem
      have hgd : h.keys.getD (h.keys.indexOf c) "" = c := by
        rw [List.getD_eq_getElem h.keys "" hi]
        exact List.getElem_indexOf hi
      have hne := next_eq h (h.keys.indexOf c) hi hnd (by rw [hcm, hgd])
      rw [hne] at hr
      refine ⟨(h.keys.indexOf c + 1) % h.keys.length, Nat.mod_lt _ (by omega),
        (Option.some.inj hr).symm⟩
    · have : h.next = none := by
        simp only [ModeHandler.next, hcm]
        rw [if_neg hmem]
      rw [this] at hr
      exact Option.noConfusion hr

theorem next_preserves (h : ModeHandler) (hinv : EngineInvStrong h) :
    EngineInvStrong (applyOp h Op.next) := by
  rw [applyOp]
  cases hnext : h.next with
  | none => exact hinv
  | some r =>
    obtain ⟨j, hj, hrj⟩ := next_some_shape h r hinv.1 hnext
    subst hrj
    exact change_mode_preserves h _ hinv (by
      rw [List.getD_eq_getElem h.keys "" hj]
      exact List.getElem_mem hj)

theorem applyOp_preserves (h : ModeHandler) (op : Op)
    (hinv : EngineInvStrong h) (hv : validOp h op = true) :
    EngineInvStrong (applyOp h op) := by
  cases op with
  | registerMode m f => exact register_mode_preserves h m f hinv
  | registerInit m => exact register_mode_init_preserves h m hinv
  | registerExit m => exact register_mode_exit_preserves h m hinv
  | changeMode m =>
    exact change_mode_preserves h m hinv (of_decide_eq_true hv)
  | next => exact next_preserves h hinv

theorem applyOps_preserves (h : ModeHandler) (ops : List Op)
    (hinv : EngineInvStrong h) (hv : validOps h ops = true) :
    EngineInvStrong (applyOps h ops) := by
  induction ops generalizing h with
  | nil => exact hinv
  | cons op rest ih =>
    rw [validOps, Bool.and_eq_true] at hv
    exact ih (applyOp h op) (applyOp_preserves h op hinv hv.1) hv.2

/-- C9 amended: for every sequence of engine operations from the empty
engine in which each `changeMode` targets a registered mode, the invariant
holds: mode identifiers are unique and, once any mode is registered, the
current mode is a registered key.  (`change_mode` itself performs no
membership check, hence the validity restriction on its targets.) -/
theorem engine_invariant (ops : List Op)
    (hv : validOps ModeHandler.empty ops = true) :
    (applyOps ModeHandler.empty ops).keys.Nodup
    ∧ ((applyOps ModeHandler.empty ops).modes ≠ [] →
        ∃ c, (applyOps ModeHandler.empty ops).current_mode = some c
          ∧ c ∈ (applyOps ModeHandler.empty ops).keys) := by
  obtain ⟨h1, h2⟩ := applyOps_preserves ModeHandler.empty ops
    ⟨List.nodup_nil, Or.inl ⟨rfl, rfl⟩⟩ hv
  refine ⟨h1, fun hne => ?_⟩
  rcases h2 with ⟨hmod, -⟩ | h2
  · exact absurd hmod hne
  · exact h2

/-- C9 amended witness. -/
theorem engine_invariant_witness :
    (applyOps ModeHandler.empty
        [Op.registerMode "a" true, Op.registerInit "b", Op.changeMode "b",
         Op.next]).keys.Nodup
    ∧ ((applyOps ModeHandler.empty
        [Op.registerMode "a" true, Op.registerInit "b", Op.changeMode "b",
         Op.next]).modes ≠ [] →
        ∃ c, (applyOps ModeHandler.empty
            [Op.registerMode "a" true, Op.registerInit "b", Op.changeMode "b",
             Op.next]).current_mode = some c
          ∧ c ∈ (applyOps ModeHandler.empty
            [Op.registerMode "a" true, Op.registerInit "b", Op.changeMode "b",
             Op.next]).keys) :=
  engine_invariant
    [Op.registerMode "a" true, Op.registerInit "b", Op.changeMode "b", Op.next]
    (by decide)

/-- C9 counterexample: from the empty engine, registering "a" and then
calling `change_mode("b")` with the unregistered mode "b" — `change_mode`
performs no membership check — leaves `current_mode = "b"`, which is not a
registered key. -/
theorem engine_invariant_counterexample :
    (applyOps ModeHandler.empty
        [Op.registerMode "a" false, Op.changeMode "b"]).current_mode = some "b"
    ∧ "b" ∉ (applyOps ModeHandler.empty
        [Op.registerMode "a" false, Op.changeMode "b"]).keys :=
  ⟨by decide, by decide⟩

end BigBen
